import Mathlib

/-!
Verification of the `gdkg` deploy-key tool (`main.go`).

The program is an interactive Go CLI.  Its pure computational cores —
line-based editing of the SSH config file (`addSSHConfigEntry`,
`removeSSHConfigBlock`), fingerprint-output parsing (`getKeyFingerprint`)
and the input validation / control flow of the `generateKey` and
`revokeKey` flows — are embedded below over `List Char` (Go strings).
File accesses and child processes are modelled by passing the file
contents / call results explicitly; prompts and warning prints are not
modelled.  Go `strings.Split`, `strings.Join`, `strings.TrimSpace`,
`strings.Fields`, `strings.Contains`, `strings.HasPrefix`,
`strings.ContainsAny` and `strings.ToLower` are translated directly
(`unicode.IsSpace` restricted to its ASCII cases, the only ones the
proofs rely on).
-/

namespace Gdkg

/-- Character data of a string literal. -/
def str (s : String) : List Char := s.data

/-- Go `unicode.IsSpace`, ASCII cases: space, \t, \n, \v, \f, \r. -/
def goIsSpace (c : Char) : Bool :=
  c == ' ' || c == '\t' || c == '\n' || c == Char.ofNat 11 || c == Char.ofNat 12 || c == '\r'

/-- Drop trailing characters satisfying `p`. -/
def dropTrailing (p : Char → Bool) (l : List Char) : List Char :=
  (l.reverse.dropWhile p).reverse

/-- Go `strings.TrimSpace`. -/
def trimSpace (l : List Char) : List Char :=
  dropTrailing goIsSpace (l.dropWhile goIsSpace)

/-- Go `strings.HasPrefix s pre`. -/
def goStartsWith : List Char → List Char → Bool
  | _, [] => true
  | [], _ :: _ => false
  | c :: s, p :: ps => c == p && goStartsWith s ps

/-- Go `strings.Contains s sub`. -/
def goContains : List Char → List Char → Bool
  | [], sub => sub.isEmpty
  | c :: s, sub => goStartsWith (c :: s) sub || goContains s sub

/-- Go `strings.ContainsAny s chars`. -/
def goContainsAny (s chars : List Char) : Bool :=
  s.any fun c => chars.contains c

/-- Go `strings.ToLower` (ASCII behaviour, via `Char.toLower`). -/
def goToLower (s : List Char) : List Char :=
  s.map Char.toLower

/-- Go `strings.Split s "\n"`: the result is never empty, and `c` extends its
first fragment when it is not a separator. -/
def splitNl : List Char → List (List Char)
  | [] => [[]]
  | c :: rest =>
    if c = '\n' then [] :: splitNl rest
    else (c :: (splitNl rest).headI) :: (splitNl rest).tail

/-- Go `strings.Join lines "\n"`. -/
def joinNl : List (List Char) → List Char
  | [] => []
  | [l] => l
  | l :: ls => l ++ '\n' :: joinNl ls

/-- The loop body of `removeSSHConfigBlock` (main.go:274-290): line scan with
an `inBlock` flag; a line whose trimmed text starts with `Host ` and contains
`hostLine` begins a dropped block; inside a block, a `Host ` line not
containing `hostLine` ends it and is kept; every other in-block line is
dropped; out-of-block lines are kept. -/
def removeLoop (hostLine : List Char) : Bool → List (List Char) → List (List Char)
  | _, [] => []
  | inBlock, line :: rest =>
    let trimmed := trimSpace line
    if goStartsWith trimmed (str "Host ") && goContains trimmed hostLine then
      removeLoop hostLine true rest
    else if inBlock then
      if goStartsWith trimmed (str "Host ") && !goContains trimmed hostLine then
        line :: removeLoop hostLine false rest
      else
        removeLoop hostLine true rest
    else
      line :: removeLoop hostLine false rest

/-- `removeSSHConfigBlock` (main.go:265-292), as a pure function from the config
file content read at `configPath` to the content written back.  (The read /
write themselves, and the error return when the file is missing, are handled
by the caller `revokeKey`, which only calls this when the file exists.) -/
def removeSSHConfigBlock (content hostAlias : List Char) : List Char :=
  joinNl (removeLoop (str "Host " ++ hostAlias) false (splitNl content))

/-- The entry string appended by `addSSHConfigEntry` (main.go:255), the
`fmt.Sprintf` with its two arguments spliced in. -/
def sshConfigEntry (hostAlias privPath : List Char) : List Char :=
  str "\nHost " ++ hostAlias ++ str "\n\tHostName github.com\n\tUser git\n\tIdentityFile "
    ++ privPath ++ str "\n\tIdentitiesOnly yes\n"

/-- `addSSHConfigEntry` (main.go:245-263), as a pure function from the config
file content (`[]` when the file does not exist, matching the tolerated
`os.ErrNotExist`) to the content after the append; `none` models the
`SSH config entry for Host <hostAlias> already exists` error return, on which
nothing is written.  (Other I/O errors of `ReadFile`/`OpenFile` are outside
the model.) -/
def addSSHConfigEntry (content hostAlias privPath : List Char) : Option (List Char) :=
  if goContains content (str "Host " ++ hostAlias) then none
  else some (content ++ sshConfigEntry hostAlias privPath)

/-- The config file content after a call of `addSSHConfigEntry`: unchanged when
the call returns the `already exists` error (the function returns before
opening the file for writing). -/
def addSSHConfigEntryFile (content hostAlias privPath : List Char) : List Char :=
  (addSSHConfigEntry content hostAlias privPath).getD content

/-- Accumulator form of Go `strings.Fields`: split on runs of `unicode.IsSpace`
characters, yielding only the non-empty maximal runs of non-space characters.
`acc` holds the reversed current field. -/
def goFieldsAux : List Char → List Char → List (List Char)
  | acc, [] => if acc.isEmpty then [] else [acc.reverse]
  | acc, c :: rest =>
    if goIsSpace c then
      if acc.isEmpty then goFieldsAux [] rest
      else acc.reverse :: goFieldsAux [] rest
    else goFieldsAux (c :: acc) rest

/-- Go `strings.Fields`. -/
def goFields (l : List Char) : List (List Char) := goFieldsAux [] l

/-- The parsing part of `getKeyFingerprint` (main.go:337-345), applied to the
captured stdout of `ssh-keygen -l -f <path>`: split into lines, fail when the
line list is empty or the first line is empty (`no fingerprint found`), fail
when the first line has fewer than two whitespace-separated fields (`invalid
fingerprint format`), otherwise return `parts[1]`.  The `exec` invocation and
its own error path are outside the model. -/
def getKeyFingerprint (output : List Char) : Option (List Char) :=
  let lines := splitNl output
  if lines.length = 0 ∨ lines.headI.isEmpty then none
  else
    let parts := goFields lines.headI
    if h : parts.length < 2 then none
    else some (parts.get ⟨1, by omega⟩)

/-! ## Control-flow models of `generateKey` and `revokeKey`

The two interactive flows are modelled as pure functions from the user's
answers (the raw scanner lines; `askInput` trims them) and an environment
record holding the results of the file-system / child-process calls the flow
makes, to the sequence of file-affecting and process-spawning actions the
flow performs plus a flag telling whether it ended in `log.Fatal`.  Prompts
and `fmt.Print` diagnostics are not events. -/

/-- The file-affecting / process-spawning actions of the two flows. -/
inductive Ev
  /-- `os.MkdirAll(dir, 0700)` (main.go:68) -/
  | mkdirAll
  /-- running `ssh-keygen -t ed25519 ...` (main.go:86-89), which writes the key pair -/
  | sshKeygen
  /-- `os.ReadFile(pubPath)` (main.go:94) -/
  | readPubKey
  /-- the `addSSHConfigEntry` call (main.go:113), an append to the config file -/
  | addConfigEntry
  /-- the `addKeyToSSHAgent` call (main.go:121) -/
  | agentAdd
  /-- the `getKeyFingerprint` call (main.go:170) -/
  | getFingerprint
  /-- the `removeKeyFromSSHAgent` call (main.go:178) -/
  | agentRemove
  /-- `removeFileWithInfo(privPath, ...)` (main.go:192) -/
  | removePrivFile
  /-- `removeFileWithInfo(pubPath, ...)` (main.go:193) -/
  | removePubFile
  /-- the `backupFile(configPath)` call (main.go:199) -/
  | backupConfig
  /-- the `removeSSHConfigBlock` call (main.go:204), an edit of the config file -/
  | removeConfigBlock
deriving DecidableEq

/-- Outcome of a flow: the actions performed, in order, and whether the flow
ended by `log.Fatal` (which exits the process right after the last action). -/
structure FlowResult where
  events : List Ev
  fatal : Bool
deriving DecidableEq

/-- Results of the environment calls made by `generateKey`. -/
structure GenEnv where
  /-- `os.MkdirAll` succeeds -/
  mkdirOk : Bool
  /-- `fileExists(privPath)` -/
  privExists : Bool
  /-- `fileExists(pubPath)` -/
  pubExists : Bool
  /-- the `ssh-keygen` run succeeds -/
  keygenOk : Bool
  /-- `os.ReadFile(pubPath)` succeeds -/
  readPubOk : Bool
  /-- `addSSHConfigEntry` returns an error -/
  addEntryErr : Bool

/-- `generateKey` (main.go:40-137).  Arguments are the raw answers to the
prompts, in order: repository name, email, target directory, overwrite
confirmation, GitHub user, `create config entry` confirmation.  Defaulting of
the email and directory answers has no observable effect in the model;
scanner read errors are not modelled (answers are given). -/
def generateKey (repoAns emailAns dirAns owAns userAns cfgAns : List Char) (env : GenEnv) :
    FlowResult :=
  let repo := trimSpace repoAns
  if repo.isEmpty then ⟨[], true⟩
  else if goContainsAny repo (str "/\\ ") then ⟨[], true⟩
  else if !env.mkdirOk then ⟨[.mkdirAll], true⟩
  else if (env.privExists || env.pubExists) && !(goToLower (trimSpace owAns) == str "y") then
    ⟨[.mkdirAll], true⟩
  else if !env.keygenOk then ⟨[.mkdirAll, .sshKeygen], true⟩
  else if !env.readPubOk then ⟨[.mkdirAll, .sshKeygen, .readPubKey], true⟩
  else if (trimSpace userAns).isEmpty then ⟨[.mkdirAll, .sshKeygen, .readPubKey], true⟩
  else
    let cfg := trimSpace cfgAns
    if cfg.isEmpty || goToLower cfg == str "y" then
      if env.addEntryErr then ⟨[.mkdirAll, .sshKeygen, .readPubKey, .addConfigEntry], false⟩
      else ⟨[.mkdirAll, .sshKeygen, .readPubKey, .addConfigEntry, .agentAdd], false⟩
    else ⟨[.mkdirAll, .sshKeygen, .readPubKey], false⟩

/-- Result of an `os.Remove` call, as discriminated by `removeFileWithInfo`. -/
inductive RemoveRes
  | ok
  | notExist
  | otherErr
deriving DecidableEq

/-- The message class printed by `removeFileWithInfo` (main.go:220-230); the
function never aborts, whatever `os.Remove` returns. -/
inductive RemoveMsg
  | deleted
  | notFound
  | errorMsg
deriving DecidableEq

/-- `removeFileWithInfo` (main.go:220-230), as the map from the `os.Remove`
outcome to the message class printed. -/
def removeFileWithInfo : RemoveRes → RemoveMsg
  | .ok => .deleted
  | .notExist => .notFound
  | .otherErr => .errorMsg

/-- Results of the environment calls made by `revokeKey`. -/
structure RevokeEnv where
  /-- `fileExists(privPath)` -/
  privExists : Bool
  /-- `getKeyFingerprint` succeeds (when it errors, the returned string is empty) -/
  fingerprintOk : Bool
  /-- the fingerprint value on success -/
  fingerprint : List Char
  /-- `isKeyInSSHAgent(fingerprint)` (false also when `ssh-add -l` fails) -/
  agentHas : Bool
  /-- `removeKeyFromSSHAgent` succeeds -/
  agentRemoveOk : Bool
  /-- outcome of `os.Remove(privPath)` -/
  privRemove : RemoveRes
  /-- outcome of `os.Remove(pubPath)` -/
  pubRemove : RemoveRes
  /-- `fileExists(configPath)` -/
  configExists : Bool
  /-- `backupFile(configPath)` succeeds -/
  backupOk : Bool
  /-- `removeSSHConfigBlock` succeeds -/
  removeBlockOk : Bool

/-- `revokeKey` (main.go:139-210).  Arguments are the raw answers to the two
prompts (repository name, key directory) and the environment-call results.
The `SSH_AUTH_SOCK` diagnostic print, the warning prints and the manual
fallback command print are not events; note that none of the environment
failures leads to `log.Fatal`. -/
def revokeKey (repoAns dirAns : List Char) (env : RevokeEnv) : FlowResult :=
  let repo := trimSpace repoAns
  if repo.isEmpty then ⟨[], true⟩
  else
    let fpEvents := if env.privExists then [Ev.getFingerprint] else []
    let fingerprint := if env.privExists && env.fingerprintOk then env.fingerprint else []
    let agEvents := if !fingerprint.isEmpty && env.agentHas then [Ev.agentRemove] else []
    let cfgEvents :=
      if env.configExists then [Ev.backupConfig, Ev.removeConfigBlock] else []
    ⟨fpEvents ++ agEvents ++ [Ev.removePrivFile, Ev.removePubFile] ++ cfgEvents, false⟩

/-! ## Bridging lemmas for the Go string primitives -/

theorem goStartsWith_iff (s p : List Char) : goStartsWith s p = true ↔ p <+: s := by
  induction p generalizing s with
  | nil => simp [goStartsWith]
  | cons a ps ih =>
    cases s with
    | nil => simp [goStartsWith]
    | cons c cs =>
      rw [goStartsWith, Bool.and_eq_true, beq_iff_eq, ih, List.cons_prefix_cons]
      exact ⟨fun ⟨h1, h2⟩ => ⟨h1.symm, h2⟩, fun ⟨h1, h2⟩ => ⟨h1.symm, h2⟩⟩

theorem goContains_iff (s sub : List Char) : goContains s sub = true ↔ sub <:+: s := by
  induction s with
  | nil => simp [goContains, List.isEmpty_iff]
  | cons c cs ih =>
    simp [goContains, Bool.or_eq_true, goStartsWith_iff, ih, List.infix_cons_iff]

theorem splitNl_nil : splitNl [] = [[]] := rfl

theorem splitNl_cons_nl (rest : List Char) : splitNl ('\n' :: rest) = [] :: splitNl rest := by
  simp [splitNl]

theorem splitNl_cons_ne {c : Char} (h : c ≠ '\n') (rest : List Char) :
    splitNl (c :: rest) = (c :: (splitNl rest).headI) :: (splitNl rest).tail := by
  simp [splitNl, h]

theorem splitNl_ne_nil (l : List Char) : splitNl l ≠ [] := by
  cases l with
  | nil => simp [splitNl]
  | cons c rest =>
    simp only [splitNl]
    split <;> simp

theorem splitNl_headI (l : List Char) :
    (splitNl l).headI = l.takeWhile fun c => !(c == '\n') := by
  induction l with
  | nil => simp [splitNl]
  | cons c rest ih =>
    by_cases h : c = '\n'
    · subst h; simp [splitNl, List.takeWhile_cons]
    · simp [splitNl, h, List.takeWhile_cons, ih]

theorem splitNl_append_cons (a b : List Char) :
    splitNl (a ++ '\n' :: b) = splitNl a ++ splitNl b := by
  induction a with
  | nil => simp [splitNl]
  | cons c a' ih =>
    by_cases h : c = '\n'
    · subst h; simp [splitNl, ih]
    · obtain ⟨l, ls, hrep⟩ : ∃ l ls, splitNl a' = l :: ls := by
        cases hx : splitNl a' with
        | nil => exact absurd hx (splitNl_ne_nil a')
        | cons l ls => exact ⟨l, ls, rfl⟩
      simp [splitNl, h, ih, hrep]

theorem splitNl_eq_single {l : List Char} (h : ¬ '\n' ∈ l) : splitNl l = [l] := by
  induction l with
  | nil => simp [splitNl]
  | cons c rest ih =>
    have hc : c ≠ '\n' := fun he => h (he ▸ List.mem_cons_self c rest)
    have hr : ¬ '\n' ∈ rest := fun he => h (List.mem_cons_of_mem c he)
    simp [splitNl, hc, ih hr]

theorem joinNl_splitNl (l : List Char) : joinNl (splitNl l) = l := by
  induction l with
  | nil => simp [splitNl, joinNl]
  | cons c rest ih =>
    obtain ⟨m, ms, hrep⟩ : ∃ m ms, splitNl rest = m :: ms := by
      cases hx : splitNl rest with
      | nil => exact absurd hx (splitNl_ne_nil rest)
      | cons m ms => exact ⟨m, ms, rfl⟩
    by_cases h : c = '\n'
    · subst h
      rw [hrep] at ih
      simp [splitNl, hrep, joinNl, ih]
    · rw [hrep] at ih
      cases ms with
      | nil => simpa [splitNl, h, hrep, joinNl] using ih
      | cons m' ms' => simpa [splitNl, h, hrep, joinNl] using ih

theorem mem_splitNl_sub {m l : List Char} (h : m ∈ splitNl l) : m <:+: l := by
  induction l with
  | nil =>
    rw [splitNl_nil, List.mem_singleton] at h
    subst h
    exact List.nil_infix
  | cons c rest ih =>
    by_cases hc : c = '\n'
    · subst hc
      rw [splitNl_cons_nl, List.mem_cons] at h
      rcases h with rfl | h
      · exact List.nil_infix
      · exact List.infix_cons (ih h)
    · obtain ⟨m0, ms, hrep⟩ : ∃ m0 ms, splitNl rest = m0 :: ms := by
        cases hx : splitNl rest with
        | nil => exact absurd hx (splitNl_ne_nil rest)
        | cons m0 ms => exact ⟨m0, ms, rfl⟩
      rw [splitNl_cons_ne hc, hrep, List.headI_cons, List.tail_cons, List.mem_cons] at h
      rcases h with rfl | h
      · have hm0 : m0 <+: rest := by
          have ht := splitNl_headI rest
          rw [hrep, List.headI_cons] at ht
          exact ht ▸ List.takeWhile_prefix _
        exact (List.cons_prefix_cons.mpr ⟨rfl, hm0⟩).isInfix
      · exact List.infix_cons (ih (hrep ▸ List.mem_cons_of_mem m0 h))

theorem dropTrailing_pre (p : Char → Bool) (l : List Char) : dropTrailing p l <+: l := by
  have h : l.reverse.dropWhile p <:+ l.reverse := List.dropWhile_suffix p
  have h2 := List.reverse_prefix.mpr h
  rwa [List.reverse_reverse] at h2

theorem trimSpace_sub (l : List Char) : trimSpace l <:+: l :=
  ((dropTrailing_pre _ _).isInfix).trans (List.dropWhile_suffix _).isInfix

theorem dropWhile_eq_self_of_head {p : Char → Bool} {l : List Char}
    (h : ∀ c, l.head? = some c → p c = false) : l.dropWhile p = l := by
  cases l with
  | nil => rfl
  | cons c cs => simp [List.dropWhile_cons, h c rfl]

theorem dropTrailing_eq_self {p : Char → Bool} {l : List Char}
    (h : ∀ c, l.getLast? = some c → p c = false) : dropTrailing p l = l := by
  unfold dropTrailing
  rw [dropWhile_eq_self_of_head, List.reverse_reverse]
  intro c hc
  exact h c (by rwa [List.head?_reverse] at hc)

theorem trimSpace_eq_self {l : List Char}
    (h1 : ∀ c, l.head? = some c → goIsSpace c = false)
    (h2 : ∀ c, l.getLast? = some c → goIsSpace c = false) : trimSpace l = l := by
  unfold trimSpace
  rw [dropWhile_eq_self_of_head h1, dropTrailing_eq_self h2]

/-! ## Lemmas about the removal loop -/

/-- The block-start condition of `removeSSHConfigBlock` (main.go:276). -/
def lineMatches (hostLine line : List Char) : Bool :=
  goStartsWith (trimSpace line) (str "Host ") && goContains (trimSpace line) hostLine

theorem removeLoop_keep (hostLine : List Char) (L M : List (List Char))
    (h : ∀ l ∈ L, lineMatches hostLine l = false) :
    removeLoop hostLine false (L ++ M) = L ++ removeLoop hostLine false M := by
  induction L with
  | nil => rfl
  | cons x xs ih =>
    have hx := h x (List.mem_cons_self x xs)
    rw [lineMatches] at hx
    have ih' := ih fun l hl => h l (List.mem_cons_of_mem x hl)
    simp only [List.cons_append, removeLoop, hx, Bool.false_eq_true, if_false, List.append_eq, ih']

theorem removeLoop_nil (hostLine : List Char) (b : Bool) : removeLoop hostLine b [] = [] := rfl

theorem removeLoop_keep_all (hostLine : List Char) (L : List (List Char))
    (h : ∀ l ∈ L, lineMatches hostLine l = false) :
    removeLoop hostLine false L = L := by
  have h2 := removeLoop_keep hostLine L [] h
  simpa [removeLoop_nil] using h2

theorem removeLoop_skip_block (hostLine : List Char) (B M : List (List Char))
    (h : ∀ l ∈ B, goStartsWith (trimSpace l) (str "Host ") = false) :
    removeLoop hostLine true (B ++ M) = removeLoop hostLine true M := by
  induction B with
  | nil => rfl
  | cons x xs ih =>
    have hx := h x (List.mem_cons_self x xs)
    have ih' := ih fun l hl => h l (List.mem_cons_of_mem x hl)
    simp only [List.cons_append, removeLoop, hx, Bool.false_and, Bool.false_eq_true, if_false,
      if_true, ite_true, List.append_eq, ih']

theorem removeLoop_enter (hostLine line : List Char) (b : Bool) (M : List (List Char))
    (h : lineMatches hostLine line = true) :
    removeLoop hostLine b (line :: M) = removeLoop hostLine true M := by
  rw [lineMatches] at h
  simp only [removeLoop, h, if_true]

theorem removeLoop_exit (hostLine line : List Char) (M : List (List Char))
    (hpre : goStartsWith (trimSpace line) (str "Host ") = true)
    (hno : goContains (trimSpace line) hostLine = false) :
    removeLoop hostLine true (line :: M) = line :: removeLoop hostLine false M := by
  simp only [removeLoop, hpre, hno, Bool.true_and, Bool.and_false, Bool.false_eq_true, if_false,
    Bool.not_false, Bool.true_eq_false, if_true]

/-- Processing `P ++ hd :: (B ++ R)` where no line of `P` or `R` starts a block,
`hd` does, no line of `B` is a `Host ` line, and `R` is empty or starts with a
`Host ` line, drops exactly `hd :: B`. -/
theorem removeLoop_block (hostLine hd : List Char) (P B R : List (List Char))
    (hP : ∀ l ∈ P, lineMatches hostLine l = false)
    (hhd : lineMatches hostLine hd = true)
    (hB : ∀ l ∈ B, goStartsWith (trimSpace l) (str "Host ") = false)
    (hR : ∀ l ∈ R, lineMatches hostLine l = false)
    (hRhead : ∀ l ∈ R.take 1, goStartsWith (trimSpace l) (str "Host ") = true) :
    removeLoop hostLine false (P ++ hd :: (B ++ R)) = P ++ R := by
  rw [removeLoop_keep hostLine P _ hP, removeLoop_enter hostLine hd false _ hhd,
    removeLoop_skip_block hostLine B R hB]
  cases R with
  | nil => rfl
  | cons l2 R2 =>
    have hpre := hRhead l2 (by simp)
    have hm := hR l2 (List.mem_cons_self l2 R2)
    have hno : goContains (trimSpace l2) hostLine = false := by
      rw [lineMatches, hpre, Bool.true_and] at hm
      exact hm
    rw [removeLoop_exit hostLine l2 R2 hpre hno,
      removeLoop_keep_all hostLine R2 fun l hl => hR l (List.mem_cons_of_mem l2 hl)]

/-! ## Lemmas about the appended config entry -/

theorem not_newline_mem_of_nonspace {a : List Char} (h : ∀ c ∈ a, goIsSpace c = false) :
    ¬ '\n' ∈ a := fun hm => absurd (h '\n' hm) (by decide)

theorem trimSpace_hostLine {a : List Char} (hne : a ≠ []) (hs : ∀ c ∈ a, goIsSpace c = false) :
    trimSpace (str "Host " ++ a) = str "Host " ++ a := by
  apply trimSpace_eq_self
  · intro c hc
    rw [show (str "Host " ++ a).head? = some 'H' from rfl, Option.some.injEq] at hc
    subst hc
    decide
  · intro c hc
    rw [List.getLast?_append_of_ne_nil _ hne] at hc
    exact hs c (List.mem_of_getLast?_eq_some hc)

theorem lineMatches_hostLine {a : List Char} (hne : a ≠ []) (hs : ∀ c ∈ a, goIsSpace c = false) :
    lineMatches (str "Host " ++ a) (str "Host " ++ a) = true := by
  rw [lineMatches, trimSpace_hostLine hne hs, Bool.and_eq_true, goStartsWith_iff,
    goContains_iff]
  exact ⟨List.prefix_append _ _, List.infix_rfl⟩

theorem idline_not_host (p : List Char) :
    goStartsWith (trimSpace (str "\tIdentityFile " ++ p)) (str "Host ") = false := by
  by_contra hcon
  rw [Bool.not_eq_false, goStartsWith_iff] at hcon
  have htrim : trimSpace (str "\tIdentityFile " ++ p) <+: 'I' :: (str "dentityFile " ++ p) := by
    have hd : (str "\tIdentityFile " ++ p).dropWhile goIsSpace
        = 'I' :: (str "dentityFile " ++ p) := rfl
    unfold trimSpace
    rw [hd]
    exact dropTrailing_pre _ _
  have h2 : str "Host " <+: 'I' :: (str "dentityFile " ++ p) := hcon.trans htrim
  rw [show str "Host " = 'H' :: str "ost " from rfl, List.cons_prefix_cons] at h2
  exact absurd h2.1 (by decide)

/-- Splitting a config file content with the freshly appended entry into lines:
the entry contributes the `Host` header, the four field lines and a final
empty fragment (the entry string ends in a newline). -/
theorem splitNl_content_entry (content a p : List Char) (ha : ¬ '\n' ∈ a) (hp : ¬ '\n' ∈ p) :
    splitNl (content ++ sshConfigEntry a p) =
      splitNl content ++ [str "Host " ++ a, str "\tHostName github.com", str "\tUser git",
        str "\tIdentityFile " ++ p, str "\tIdentitiesOnly yes", []] := by
  have e : content ++ sshConfigEntry a p =
      content ++ '\n' :: ((str "Host " ++ a) ++ '\n' :: (str "\tHostName github.com" ++ '\n' ::
        (str "\tUser git" ++ '\n' :: ((str "\tIdentityFile " ++ p) ++ '\n' ::
        (str "\tIdentitiesOnly yes" ++ '\n' :: ([] : List Char)))))) := by
    rw [sshConfigEntry]
    rw [show str "\nHost " = '\n' :: str "Host " from rfl,
      show str "\n\tHostName github.com\n\tUser git\n\tIdentityFile "
        = '\n' :: str "\tHostName github.com" ++ '\n' :: str "\tUser git"
          ++ '\n' :: str "\tIdentityFile " from rfl,
      show str "\n\tIdentitiesOnly yes\n" = '\n' :: str "\tIdentitiesOnly yes" ++ '\n' :: [] from rfl]
    simp [List.append_assoc, List.cons_append]
  have hhdr : ¬ '\n' ∈ str "Host " ++ a := by
    intro hm
    rcases List.mem_append.mp hm with h | h
    · exact absurd h (by decide)
    · exact ha h
  have hid : ¬ '\n' ∈ str "\tIdentityFile " ++ p := by
    intro hm
    rcases List.mem_append.mp hm with h | h
    · exact absurd h (by decide)
    · exact hp h
  rw [e, splitNl_append_cons, splitNl_append_cons, splitNl_append_cons, splitNl_append_cons,
    splitNl_append_cons, splitNl_append_cons]
  rw [@splitNl_eq_single (str "Host " ++ a) hhdr, @splitNl_eq_single (str "\tIdentityFile " ++ p) hid]
  rw [show splitNl (str "\tHostName github.com") = [str "\tHostName github.com"] from by decide,
    show splitNl (str "\tUser git") = [str "\tUser git"] from by decide,
    show splitNl (str "\tIdentitiesOnly yes") = [str "\tIdentitiesOnly yes"] from by decide,
    splitNl_nil]
  simp

theorem lineMatches_false_of_not_contains {hostLine l : List Char}
    (h : goContains l hostLine = false) : lineMatches hostLine l = false := by
  rw [lineMatches]
  cases hcase : goContains (trimSpace l) hostLine with
  | false => simp
  | true =>
    exfalso
    have h1 : hostLine <:+: l := ((goContains_iff _ _).mp hcase).trans (trimSpace_sub l)
    have h2 := (goContains_iff l hostLine).mpr h1
    rw [h] at h2
    exact Bool.false_ne_true h2

theorem not_contains_of_mem_splitNl {content hostLine l : List Char}
    (hnc : goContains content hostLine = false) (hl : l ∈ splitNl content) :
    goContains l hostLine = false := by
  cases hcase : goContains l hostLine with
  | false => rfl
  | true =>
    exfalso
    have h2 := (goContains_iff content hostLine).mpr
      (((goContains_iff _ _).mp hcase).trans (mem_splitNl_sub hl))
    rw [hnc] at h2
    exact Bool.false_ne_true h2

/-! ## Claims about the config editing functions -/

/-- C1: for a pre-existing config content not containing `Host <alias>`,
appending the block for the alias with `addSSHConfigEntry` and then removing
it with `removeSSHConfigBlock` restores the content byte-identically, all
pre-existing lines (in particular unrelated blocks) untouched.  The alias is
nonempty and whitespace-free (as `github-<repo>` is for any valid repository
name) and the identity-file path contains no newline. -/
theorem add_then_remove_roundtrip (content a p : List Char)
    (hnc : goContains content (str "Host " ++ a) = false)
    (hane : a ≠ []) (hasp : ∀ c ∈ a, goIsSpace c = false) (hp : ¬ '\n' ∈ p) :
    addSSHConfigEntry content a p = some (content ++ sshConfigEntry a p)
    ∧ removeSSHConfigBlock (content ++ sshConfigEntry a p) a = content := by
  constructor
  · rw [addSSHConfigEntry, if_neg (by rw [hnc]; exact Bool.false_ne_true)]
  · have ha : ¬ '\n' ∈ a := not_newline_mem_of_nonspace hasp
    rw [removeSSHConfigBlock, splitNl_content_entry content a p ha hp]
    have hcontent : ∀ l ∈ splitNl content, lineMatches (str "Host " ++ a) l = false :=
      fun l hl => lineMatches_false_of_not_contains (not_contains_of_mem_splitNl hnc hl)
    have hbody : ∀ l ∈ [str "\tHostName github.com", str "\tUser git",
        str "\tIdentityFile " ++ p, str "\tIdentitiesOnly yes", ([] : List Char)],
        goStartsWith (trimSpace l) (str "Host ") = false := by
      intro l hl
      simp only [List.mem_cons, List.not_mem_nil, or_false] at hl
      rcases hl with rfl | rfl | rfl | rfl | rfl
      · decide
      · decide
      · exact idline_not_host p
      · decide
      · decide
    have hshape : splitNl content ++ [str "Host " ++ a, str "\tHostName github.com",
        str "\tUser git", str "\tIdentityFile " ++ p, str "\tIdentitiesOnly yes", []]
        = splitNl content ++ (str "Host " ++ a) :: ([str "\tHostName github.com", str "\tUser git",
          str "\tIdentityFile " ++ p, str "\tIdentitiesOnly yes", []] ++ []) := by simp
    rw [hshape, removeLoop_block _ _ _ _ _ hcontent (lineMatches_hostLine hane hasp) hbody
      (fun l hl => absurd hl (List.not_mem_nil l)) (by intro l hl; simp at hl)]
    rw [List.append_nil, joinNl_splitNl]

/-- C1 witness: a concrete unrelated block survives the round trip. -/
theorem add_then_remove_roundtrip_witness :
    addSSHConfigEntry (str "Host other\n\tUser git") (str "github-myrepo")
        (str "/home/u/.ssh/myrepo_deploy-key")
      = some (str "Host other\n\tUser git"
          ++ sshConfigEntry (str "github-myrepo") (str "/home/u/.ssh/myrepo_deploy-key"))
    ∧ removeSSHConfigBlock (str "Host other\n\tUser git"
          ++ sshConfigEntry (str "github-myrepo") (str "/home/u/.ssh/myrepo_deploy-key"))
        (str "github-myrepo")
      = str "Host other\n\tUser git" :=
  add_then_remove_roundtrip (str "Host other\n\tUser git") (str "github-myrepo")
    (str "/home/u/.ssh/myrepo_deploy-key") (by decide) (by decide) (by decide) (by decide)

/-- C2: `removeSSHConfigBlock` drops exactly the span from the line matching
`Host <alias>` up to (excluding) the next `Host ` line or end of file, and
keeps every other line verbatim in original order; in particular, on a content
of a `Host A` block followed by a `Host B` block, removing `A` leaves exactly
the `Host B` block (see the witness). -/
theorem removeBlock_span (content a hd : List Char) (P B R : List (List Char))
    (hsplit : splitNl content = P ++ hd :: (B ++ R))
    (hP : ∀ l ∈ P, lineMatches (str "Host " ++ a) l = false)
    (hhd : lineMatches (str "Host " ++ a) hd = true)
    (hB : ∀ l ∈ B, goStartsWith (trimSpace l) (str "Host ") = false)
    (hR : ∀ l ∈ R, lineMatches (str "Host " ++ a) l = false)
    (hRhead : ∀ l ∈ R.take 1, goStartsWith (trimSpace l) (str "Host ") = true) :
    removeSSHConfigBlock content a = joinNl (P ++ R) := by
  rw [removeSSHConfigBlock, hsplit, removeLoop_block _ _ _ _ _ hP hhd hB hR hRhead]

/-- C2 witness: two blocks `Host A`, `Host B`; removing `A` leaves exactly the
`Host B` block, verbatim. -/
theorem removeBlock_span_witness :
    removeSSHConfigBlock
        (str "Host A\n\tHostName github.com\n\tUser git\nHost B\n\tHostName github.com")
        (str "A")
      = str "Host B\n\tHostName github.com" := by
  have h := removeBlock_span
    (str "Host A\n\tHostName github.com\n\tUser git\nHost B\n\tHostName github.com") (str "A")
    (str "Host A") [] [str "\tHostName github.com", str "\tUser git"]
    [str "Host B", str "\tHostName github.com"]
    (by decide) (by decide) (by decide) (by decide) (by decide) (by decide)
  rw [h]
  decide

/-- C3: `addSSHConfigEntry` returns the `already exists` error exactly when the
config content contains `Host <alias>`; on that error the file is unchanged;
otherwise it appends the entry whose lines are the `Host <alias>` header and
the `HostName github.com`, `User git`, `IdentityFile <path>`,
`IdentitiesOnly yes` fields. -/
theorem addSSHConfigEntry_spec (content a p : List Char) (ha : ¬ '\n' ∈ a) (hp : ¬ '\n' ∈ p) :
    (addSSHConfigEntry content a p = none ↔ goContains content (str "Host " ++ a) = true)
    ∧ (goContains content (str "Host " ++ a) = true → addSSHConfigEntryFile content a p = content)
    ∧ (goContains content (str "Host " ++ a) = false →
        addSSHConfigEntry content a p = some (content ++ sshConfigEntry a p)
        ∧ splitNl (sshConfigEntry a p)
          = [[], str "Host " ++ a, str "\tHostName github.com", str "\tUser git",
             str "\tIdentityFile " ++ p, str "\tIdentitiesOnly yes", []]) := by
  refine ⟨?_, ?_, ?_⟩
  · cases hcase : goContains content (str "Host " ++ a) with
    | true => simp [addSSHConfigEntry, hcase]
    | false => simp [addSSHConfigEntry, hcase]
  · intro hcase
    simp [addSSHConfigEntryFile, addSSHConfigEntry, hcase]
  · intro hcase
    refine ⟨by simp [addSSHConfigEntry, hcase], ?_⟩
    have h := splitNl_content_entry [] a p ha hp
    rw [List.nil_append] at h
    rw [h, splitNl_nil]
    rfl

/-- C3 witness: a second block for an existing alias is rejected and the file
content stays as it was. -/
theorem addSSHConfigEntry_spec_witness :
    addSSHConfigEntry (str "Host github-x\n\tUser git") (str "github-x") (str "/k") = none
    ∧ addSSHConfigEntryFile (str "Host github-x\n\tUser git") (str "github-x") (str "/k")
      = str "Host github-x\n\tUser git" := by
  have h := addSSHConfigEntry_spec (str "Host github-x\n\tUser git") (str "github-x") (str "/k")
    (by decide) (by decide)
  exact ⟨h.1.mpr (by decide), h.2.1 (by decide)⟩

/-- C9: when no line of the config content contains `Host <alias>`,
`removeSSHConfigBlock` writes back exactly the content it read. -/
theorem removeBlock_no_match_id (content a : List Char)
    (h : ∀ l ∈ splitNl content, goContains l (str "Host " ++ a) = false) :
    removeSSHConfigBlock content a = content := by
  rw [removeSSHConfigBlock,
    removeLoop_keep_all _ _ (fun l hl => lineMatches_false_of_not_contains (h l hl)),
    joinNl_splitNl]

/-- C9 witness. -/
theorem removeBlock_no_match_id_witness :
    removeSSHConfigBlock (str "Host other\n\tHostName github.com\n\tUser git")
        (str "github-myrepo")
      = str "Host other\n\tHostName github.com\n\tUser git" :=
  removeBlock_no_match_id _ _ (by decide)

/-- C10: alias matching is by substring containment, not equality: any header
line whose trimmed text starts with `Host ` and merely contains
`Host <alias>` as a substring makes `addSSHConfigEntry` fail with the
`already exists` error, and `removeSSHConfigBlock` drops that header's whole
block (witness: header `Host github-repo2` against alias `github-repo`). -/
theorem substring_alias_matching (content a p hd : List Char) (P B R : List (List Char))
    (hsplit : splitNl content = P ++ hd :: (B ++ R))
    (hhdpre : goStartsWith (trimSpace hd) (str "Host ") = true)
    (hhdsub : goContains (trimSpace hd) (str "Host " ++ a) = true)
    (hP : ∀ l ∈ P, lineMatches (str "Host " ++ a) l = false)
    (hB : ∀ l ∈ B, goStartsWith (trimSpace l) (str "Host ") = false)
    (hR : ∀ l ∈ R, lineMatches (str "Host " ++ a) l = false)
    (hRhead : ∀ l ∈ R.take 1, goStartsWith (trimSpace l) (str "Host ") = true) :
    addSSHConfigEntry content a p = none
    ∧ removeSSHConfigBlock content a = joinNl (P ++ R) := by
  constructor
  · have hmem : hd ∈ splitNl content := by
      rw [hsplit]
      exact List.mem_append_right _ (List.mem_cons_self _ _)
    have hsub : (str "Host " ++ a) <:+: content :=
      (((goContains_iff _ _).mp hhdsub).trans (trimSpace_sub hd)).trans (mem_splitNl_sub hmem)
    simp [addSSHConfigEntry, (goContains_iff _ _).mpr hsub]
  · rw [removeSSHConfigBlock, hsplit,
      removeLoop_block _ _ _ _ _ hP (by rw [lineMatches, hhdpre, hhdsub]; rfl) hB hR hRhead]

/-- C10 witness: alias `github-repo` against the distinct alias
`github-repo2`: the add is rejected and the `Host github-repo2` block is
dropped by the removal. -/
theorem substring_alias_matching_witness :
    addSSHConfigEntry (str "Host github-repo2\n\tUser git\nHost other\n\tUser git")
        (str "github-repo") (str "/k") = none
    ∧ removeSSHConfigBlock (str "Host github-repo2\n\tUser git\nHost other\n\tUser git")
        (str "github-repo")
      = str "Host other\n\tUser git" := by
  have h := substring_alias_matching
    (str "Host github-repo2\n\tUser git\nHost other\n\tUser git")
    (str "github-repo") (str "/k") (str "Host github-repo2")
    [] [str "\tUser git"] [str "Host other", str "\tUser git"]
    (by decide) (by decide) (by decide) (by decide) (by decide) (by decide) (by decide)
  refine ⟨h.1, ?_⟩
  rw [h.2]
  decide

/-! ## Claim about the fingerprint parser -/

/-- C8: `getKeyFingerprint` returns exactly the second whitespace-separated
field of the first output line (`get? 1` of the field list), hence `none`
exactly when the output's first line has fewer than two fields — which covers
the empty output, whose first line is empty and has no fields. -/
theorem getKeyFingerprint_spec (output : List Char) :
    getKeyFingerprint output
      = (goFields (output.takeWhile fun c => !(c == '\n'))).get? 1 := by
  rw [← splitNl_headI]
  have hlen : ¬ (splitNl output).length = 0 := by
    simpa [List.length_eq_zero] using splitNl_ne_nil output
  simp only [getKeyFingerprint]
  by_cases hemp : ((splitNl output).headI).isEmpty
  · rw [if_pos (Or.inr hemp)]
    rw [List.isEmpty_iff] at hemp
    rw [hemp]
    rfl
  · rw [if_neg (not_or.mpr ⟨hlen, hemp⟩)]
    split
    · next h =>
      exact (List.get?_eq_none.mpr (by omega)).symm
    · next h =>
      exact (List.get?_eq_get (by omega)).symm

/-! ## Lemmas about `ToLower`, and claims about the two flows -/

theorem toNat_ofNat_valid {n : Nat} (h : n.isValidChar) : (Char.ofNat n).toNat = n := by
  rw [Char.ofNat, dif_pos h]
  rfl

/-- The only characters lowercasing to `y` are `y` and `Y`. -/
theorem toLower_eq_y {c : Char} (h : c.toLower = 'y') : c = 'y' ∨ c = 'Y' := by
  simp only [Char.toLower] at h
  split at h
  · next hrange =>
    right
    have hv : Nat.isValidChar (c.toNat + 32) := Or.inl (by omega)
    have h121 : c.toNat + 32 = 121 := by
      have h2 := congrArg Char.toNat h
      rwa [toNat_ofNat_valid hv, show ('y').toNat = 121 from rfl] at h2
    apply Char.ext
    apply UInt32.ext
    show c.toNat = ('Y').toNat
    have hY : ('Y').toNat = 89 := rfl
    omega
  · left
    exact h

/-- The only strings lowercasing to `y` are `y` and `Y`. -/
theorem goToLower_eq_y {s : List Char} (h : goToLower s = str "y") :
    s = str "y" ∨ s = str "Y" := by
  have hy : str "y" = ['y'] := rfl
  rw [goToLower, hy] at h
  cases s with
  | nil => exact absurd h (by decide)
  | cons c cs =>
    cases cs with
    | nil =>
      have hc : c.toLower = 'y' := by simpa using h
      rcases toLower_eq_y hc with rfl | rfl
      · left; rfl
      · right; rfl
    | cons d ds =>
      exfalso
      have hlen := congrArg List.length h
      simp at hlen

/-- A sample environment for the generate flow: nothing exists yet, all calls
succeed. -/
def sampleGenEnv : GenEnv := ⟨true, false, false, true, true, false⟩

/-- A sample environment for the revoke flow: everything exists, all calls
succeed. -/
def sampleRevokeEnv : RevokeEnv :=
  ⟨true, true, str "SHA256:abc", true, true, .ok, .ok, true, true, true⟩

/-- A revoke-flow environment in which everything that can fail fails:
the fingerprint call errors, the agent does not have the key, both
`os.Remove` calls report a missing file, and the backup and block removal
fail. -/
def failRevokeEnv : RevokeEnv :=
  ⟨true, false, [], false, false, .notExist, .notExist, true, false, false⟩

/-- A generate-flow environment in which the target key files already exist. -/
def existsGenEnv : GenEnv := ⟨true, true, false, true, true, false⟩

/-- C4 counterexample: the revoke flow does not validate repository-name
characters: for the name `a/b`, which contains `/`, it does not abort and
still proceeds to deleting the key files. -/
theorem revoke_invalid_chars_not_fatal :
    goContainsAny (trimSpace (str "a/b")) (str "/\\ ") = true
    ∧ (revokeKey (str "a/b") (str "") sampleRevokeEnv).fatal = false
    ∧ Ev.removePrivFile ∈ (revokeKey (str "a/b") (str "") sampleRevokeEnv).events := by
  decide

/-- C4 (amended): a repository name that is empty or contains `/`, `\` or a
space makes the generate flow abort fatally before any action; the revoke
flow aborts fatally before any action only for the empty name — it does not
check for invalid characters. -/
theorem repo_name_validation
    (gRepoAns emailAns dirAns owAns userAns cfgAns rRepoAns rDirAns : List Char)
    (genv : GenEnv) (renv : RevokeEnv) :
    (trimSpace gRepoAns = [] ∨ goContainsAny (trimSpace gRepoAns) (str "/\\ ") = true →
      generateKey gRepoAns emailAns dirAns owAns userAns cfgAns genv = ⟨[], true⟩)
    ∧ (trimSpace rRepoAns = [] → revokeKey rRepoAns rDirAns renv = ⟨[], true⟩) := by
  constructor
  · intro h
    rcases h with h | h
    · simp [generateKey, h]
    · have hne : (trimSpace gRepoAns).isEmpty = false := by
        cases hcase : (trimSpace gRepoAns).isEmpty with
        | false => rfl
        | true =>
          rw [List.isEmpty_iff.mp hcase] at h
          exact absurd h (by decide)
      simp [generateKey, hne, h]
  · intro h
    simp [revokeKey, h]

/-- C4 witness. -/
theorem repo_name_validation_witness :
    generateKey (str "a/b") (str "") (str "") (str "") (str "u") (str "") sampleGenEnv
      = ⟨[], true⟩
    ∧ revokeKey (str "") (str "") sampleRevokeEnv = ⟨[], true⟩ := by
  have h := repo_name_validation (str "a/b") (str "") (str "") (str "") (str "u") (str "")
    (str "") (str "") sampleGenEnv sampleRevokeEnv
  exact ⟨h.1 (Or.inr (by decide)), h.2 (by decide)⟩

/-- C5 counterexample: the generate flow appends to the SSH config file with
no preceding backup — no `backupFile` call occurs anywhere in that flow. -/
theorem generate_appends_without_backup :
    Ev.addConfigEntry ∈ (generateKey (str "myrepo") (str "") (str "") (str "") (str "u")
        (str "") sampleGenEnv).events
    ∧ Ev.backupConfig ∉ (generateKey (str "myrepo") (str "") (str "") (str "") (str "u")
        (str "") sampleGenEnv).events
    ∧ (generateKey (str "myrepo") (str "") (str "") (str "") (str "u") (str "")
        sampleGenEnv).fatal = false := by
  decide

/-- C5 (amended): only the revoke flow snapshots the config file: there,
`backupFile` runs immediately before the block removal, and its failure does
not prevent the removal (`env.backupOk` is arbitrary, in particular `false`);
the generate flow's append is preceded by no backup at all. -/
theorem backup_only_in_revoke (repoAns dirAns : List Char) (env : RevokeEnv)
    (hrepo : trimSpace repoAns ≠ []) (hcfg : env.configExists = true) :
    (∃ pre, (revokeKey repoAns dirAns env).events
        = pre ++ [Ev.backupConfig, Ev.removeConfigBlock])
    ∧ (revokeKey repoAns dirAns env).fatal = false
    ∧ ∀ (a b c d e f : List Char) (genv : GenEnv),
        Ev.backupConfig ∉ (generateKey a b c d e f genv).events := by
  have hne : (trimSpace repoAns).isEmpty = false := by
    cases hcase : (trimSpace repoAns).isEmpty with
    | false => rfl
    | true => exact absurd (List.isEmpty_iff.mp hcase) hrepo
  refine ⟨?_, ?_, ?_⟩
  · refine ⟨(if env.privExists then [Ev.getFingerprint] else [])
        ++ (if !(if env.privExists && env.fingerprintOk then env.fingerprint
              else []).isEmpty && env.agentHas then [Ev.agentRemove] else [])
        ++ [Ev.removePrivFile, Ev.removePubFile], ?_⟩
    simp only [revokeKey, hne, Bool.false_eq_true, if_false, hcfg, if_true]
  · simp [revokeKey, hne]
  · intro a b c d e f genv
    simp only [generateKey]
    repeat' split
    all_goals decide

/-- C5 witness: a concrete revoke run with a failing backup still performs the
block removal right after the backup attempt; a concrete generate run never
backs up. -/
theorem backup_only_in_revoke_witness :
    (revokeKey (str "r") (str "") failRevokeEnv).fatal = false
    ∧ (revokeKey (str "r") (str "") failRevokeEnv).events
      = [Ev.getFingerprint, Ev.removePrivFile, Ev.removePubFile]
        ++ [Ev.backupConfig, Ev.removeConfigBlock]
    ∧ Ev.backupConfig ∉ (generateKey (str "r") (str "") (str "") (str "") (str "u") (str "")
        sampleGenEnv).events := by
  have h := backup_only_in_revoke (str "r") (str "") failRevokeEnv (by decide) (by decide)
  exact ⟨h.2.1, by decide, h.2.2 (str "r") (str "") (str "") (str "") (str "u") (str "")
    sampleGenEnv⟩

/-- C6: when a file already exists at the private- or public-key target path,
every overwrite answer other than `y` or `Y` (after trimming) makes the
generate flow abort fatally before `ssh-keygen` is run. -/
theorem overwrite_decline_aborts (repoAns emailAns dirAns owAns userAns cfgAns : List Char)
    (env : GenEnv)
    (h1 : trimSpace repoAns ≠ [])
    (h2 : goContainsAny (trimSpace repoAns) (str "/\\ ") = false)
    (h3 : env.mkdirOk = true)
    (h4 : env.privExists = true ∨ env.pubExists = true)
    (h5 : trimSpace owAns ≠ str "y") (h6 : trimSpace owAns ≠ str "Y") :
    generateKey repoAns emailAns dirAns owAns userAns cfgAns env = ⟨[Ev.mkdirAll], true⟩
    ∧ Ev.sshKeygen ∉ (generateKey repoAns emailAns dirAns owAns userAns cfgAns env).events := by
  have hne : (trimSpace repoAns).isEmpty = false := by
    cases hcase : (trimSpace repoAns).isEmpty with
    | false => rfl
    | true => exact absurd (List.isEmpty_iff.mp hcase) h1
  have hlow : (goToLower (trimSpace owAns) == str "y") = false := by
    cases hcase : goToLower (trimSpace owAns) == str "y" with
    | false => rfl
    | true =>
      rcases goToLower_eq_y (eq_of_beq hcase) with hy | hy
      · exact absurd hy h5
      · exact absurd hy h6
  have hexists : (env.privExists || env.pubExists) = true := by
    rcases h4 with h | h <;> simp [h]
  have hres : generateKey repoAns emailAns dirAns owAns userAns cfgAns env
      = ⟨[Ev.mkdirAll], true⟩ := by
    simp [generateKey, hne, h2, h3, hexists, hlow]
  exact ⟨hres, by rw [hres]; decide⟩

/-- C6 witness: answer `n` with existing key files. -/
theorem overwrite_decline_aborts_witness :
    generateKey (str "myrepo") (str "") (str "") (str "n") (str "u") (str "") existsGenEnv
      = ⟨[Ev.mkdirAll], true⟩
    ∧ Ev.sshKeygen ∉ (generateKey (str "myrepo") (str "") (str "") (str "n") (str "u")
        (str "") existsGenEnv).events :=
  overwrite_decline_aborts (str "myrepo") (str "") (str "") (str "n") (str "u") (str "")
    existsGenEnv (by decide) (by decide) (by decide) (Or.inl (by decide)) (by decide) (by decide)

/-- C7: with a non-empty repository name, the revoke flow never ends fatally —
whatever the fingerprint, agent and file-removal calls return — and always
proceeds to deleting both key files and, when the config file exists, to the
backup and config-block removal; deleting a non-existent file is reported as
`not found`. -/
theorem revoke_failures_nonfatal (repoAns dirAns : List Char) (env : RevokeEnv)
    (hrepo : trimSpace repoAns ≠ []) :
    (revokeKey repoAns dirAns env).fatal = false
    ∧ Ev.removePrivFile ∈ (revokeKey repoAns dirAns env).events
    ∧ Ev.removePubFile ∈ (revokeKey repoAns dirAns env).events
    ∧ (env.configExists = true →
        Ev.backupConfig ∈ (revokeKey repoAns dirAns env).events
        ∧ Ev.removeConfigBlock ∈ (revokeKey repoAns dirAns env).events)
    ∧ removeFileWithInfo RemoveRes.notExist = RemoveMsg.notFound := by
  have hne : (trimSpace repoAns).isEmpty = false := by
    cases hcase : (trimSpace repoAns).isEmpty with
    | false => rfl
    | true => exact absurd (List.isEmpty_iff.mp hcase) hrepo
  refine ⟨?_, ?_, ?_, ?_, rfl⟩
  · simp [revokeKey, hne]
  · simp [revokeKey, hne]
  · simp [revokeKey, hne]
  · intro hcfg
    constructor <;> simp [revokeKey, hne, hcfg]

/-- C7 witness: every failure at once, and the flow still deletes the key
files and edits the config. -/
theorem revoke_failures_nonfatal_witness :
    (revokeKey (str "myrepo") (str "") failRevokeEnv).fatal = false
    ∧ Ev.removePrivFile ∈ (revokeKey (str "myrepo") (str "") failRevokeEnv).events
    ∧ Ev.removePubFile ∈ (revokeKey (str "myrepo") (str "") failRevokeEnv).events
    ∧ (failRevokeEnv.configExists = true →
        Ev.backupConfig ∈ (revokeKey (str "myrepo") (str "") failRevokeEnv).events
        ∧ Ev.removeConfigBlock ∈ (revokeKey (str "myrepo") (str "") failRevokeEnv).events)
    ∧ removeFileWithInfo RemoveRes.notExist = RemoveMsg.notFound :=
  revoke_failures_nonfatal (str "myrepo") (str "") failRevokeEnv (by decide)

end Gdkg
